import Mathlib

/-!
# StegoShade — formal model of the steganography library

Shallow embedding of `stego_lib` (header format, bit-plane codec, segment
scanner, spanning encoder/decoder) as executable Lean definitions, plus
theorems settling the specification claims.

Conventions:
* Python `bytes`/`bytearray` values are `List Nat` with entries `< 256`.
* Python exceptions are values of `PyErr`; fallible operations return
  `Except PyErr _`.
* Loops whose progress depends on parsed data (the segment scanner)
  take an explicit fuel parameter; a `false` first component means the
  fuel ran out before the loop's own stop condition was reached.
* The external collaborators (SHA-256 from `hashlib`, AES from the
  `cryptography` package, PIL image decoding) are parameters: the hash
  is an arbitrary function `H`, decryption an arbitrary
  `D : List Nat → Except PyErr (List Nat)`, and an image is its flat
  RGB channel buffer (`width*height*3` samples).
-/

/-- The Python exception kinds raised by the code under `src/`. -/
inductive PyErr where
  | valueError
  | typeError
  | attributeError
  | structError
  | indexError
  | ioError
  deriving DecidableEq, Repr

instance [DecidableEq ε] [DecidableEq α] : DecidableEq (Except ε α) := fun a b =>
  match a, b with
  | .ok x, .ok y => if h : x = y then .isTrue (by rw [h]) else .isFalse (by simp [h])
  | .error x, .error y => if h : x = y then .isTrue (by rw [h]) else .isFalse (by simp [h])
  | .ok _, .error _ => .isFalse (by simp)
  | .error _, .ok _ => .isFalse (by simp)

/-- Clamp an integer slice bound to a list of length `len`, following
Python's slice semantics: negative indices count from the end. -/
def pyBound (len : Nat) (i : Int) : Nat :=
  if i < 0 then ((len : Int) + i).toNat else min i.toNat len

/-- Python slice `l[i:j]` (step 1) with possibly negative bounds. -/
def pySlice (l : List α) (i j : Int) : List α :=
  let s := pyBound l.length i
  let e := pyBound l.length j
  (l.drop s).take (e - s)

/-- `struct.pack('>Q', n)`: the eight big-endian base-256 digits of `n`
(defined for `n < 2^64`; the packing code checks the range first). -/
def beBytes8 (n : Nat) : List Nat :=
  [n / 2 ^ 56 % 256, n / 2 ^ 48 % 256, n / 2 ^ 40 % 256, n / 2 ^ 32 % 256,
   n / 2 ^ 24 % 256, n / 2 ^ 16 % 256, n / 2 ^ 8 % 256, n % 256]

/-- `struct.unpack('>Q', b)`: big-endian value of a byte list. -/
def beU64 (l : List Nat) : Nat :=
  l.foldl (fun acc b => acc * 256 + b) 0

/-- The parsed header record (`formats/header.py`).  The dataclass has
exactly these four fields — in particular it has **no** `message_id`
field. -/
structure StegoHeader where
  total_length : Nat
  current_offset : Nat
  message_hash : List Nat
  has_next_part : Bool
  deriving DecidableEq, Repr

namespace StegoHeader

/-- `StegoHeader.SIZE = 32`. -/
def SIZE : Nat := 32

/-- `StegoHeader.MAGIC = b'STEG'`. -/
def MAGIC : List Nat := [83, 84, 69, 71]

/-- `StegoHeader.VERSION = 1`. -/
def VERSION : Nat := 1

/-- `StegoHeader.create` (`header.py` lines 26–62): serialize a header
into a 32-byte record by successive `bytearray` writes.  `struct.pack_into`
raises for values outside `u64` range; a slice assignment
`header[21:29] = message_hash[:8]` resizes the bytearray when the hash is
shorter than 8 bytes, after which `header[29] = …` could be out of range. -/
def create (total_message_length current_offset : Nat) (message_hash : List Nat)
    (has_next_part : Bool) : Except PyErr (List Nat) :=
  if total_message_length ≥ 2 ^ 64 ∨ current_offset ≥ 2 ^ 64 then
    .error .structError
  else
    let h0 := List.replicate 32 0
    let h1 := MAGIC ++ h0.drop 4
    let h2 := h1.set 4 VERSION
    let h3 := h2.take 5 ++ beBytes8 total_message_length ++ h2.drop 13
    let h4 := h3.take 13 ++ beBytes8 current_offset ++ h3.drop 21
    let h5 := h4.take 21 ++ message_hash.take 8 ++ h4.drop 29
    if h5.length ≤ 29 then .error .indexError
    else .ok (h5.set 29 (if has_next_part then 1 else 0))

/-- `StegoHeader.parse` (`header.py` lines 64–101): check length, magic
and version, then extract the fields. -/
def parse (b : List Nat) : Except PyErr StegoHeader :=
  if b.length ≠ SIZE then .error .valueError
  else if b.take 4 ≠ MAGIC then .error .valueError
  else if b.getD 4 0 ≠ VERSION then .error .valueError
  else .ok
    { total_length := beU64 ((b.drop 5).take 8)
      current_offset := beU64 ((b.drop 13).take 8)
      message_hash := (b.drop 21).take 8
      has_next_part := b.getD 29 0 != 0 }

/-- Models the attribute access `header.message_id` (`decoder.py` line 65).
The `StegoHeader` dataclass defines no `message_id` field, so the access
raises `AttributeError` for every header value. -/
def getMessageId (_ : StegoHeader) : Except PyErr Nat :=
  .error .attributeError

end StegoHeader

/-! ## `io/image_handler.py` — `ImageContainer` -/

namespace ImageContainer

/-- An image is its flat RGB channel buffer (`width*height*3` samples,
each an 8-bit value). -/
abbrev Image := List Nat

/-- `self.mask = (1 << bits_per_channel) - 1`. -/
def mask (k : Nat) : Nat := 2 ^ k - 1

/-- `self.inverse_mask = 0xFF & ~self.mask` (Python's `&` of `0xFF` with
the two's-complement `~mask` equals `0xFF - mask` for `mask ≤ 0xFF`). -/
def inverse_mask (k : Nat) : Nat := 255 - mask k

/-- `calculate_capacity` (`image_handler.py` lines 28–56):
`max(0, width*height*3*k // 8 - HEADER_SIZE)`; the buffer length is
`width*height*3`.  (`Nat` subtraction already floors at zero, matching
`max(0, ·)`.) -/
def calculate_capacity (k : Nat) (img : Image) : Nat :=
  img.length * k / 8 - StegoHeader.SIZE

/-- The per-sample bit extraction of `extract_all_bits`:
`(pixel_value >> j) & 1` for `j in range(bits_per_channel)`
(least-significant bit first). -/
def sampleBits (k s : Nat) : List Bool :=
  (List.range k).map (fun j => s.testBit j)

/-- All hidden bits of a buffer, in sample order. -/
def extractBitsList (k : Nat) : List Nat → List Bool
  | [] => []
  | s :: rest => sampleBits k s ++ extractBitsList k rest

/-- `byte = (byte << 1) | bit` folded over eight bits (MSB first). -/
def byteOfBits8 (b0 b1 b2 b3 b4 b5 b6 b7 : Bool) : Nat :=
  let v (b : Bool) : Nat := if b then 1 else 0
  ((((((v b0 * 2 + v b1) * 2 + v b2) * 2 + v b3) * 2 + v b4) * 2
      + v b5) * 2 + v b6) * 2 + v b7

/-- Regroup a bit stream into bytes (8 at a time, MSB first); a trailing
group of fewer than 8 bits is discarded (`if i + 8 > len: break`). -/
def bitsToBytes : List Bool → List Nat
  | b0 :: b1 :: b2 :: b3 :: b4 :: b5 :: b6 :: b7 :: rest =>
      byteOfBits8 b0 b1 b2 b3 b4 b5 b6 b7 :: bitsToBytes rest
  | _ => []

/-- `extract_all_bits` (`image_handler.py` lines 153–184): read the low
`k` bits of every sample in buffer order and regroup MSB-first into
bytes. -/
def extract_all_bits (k : Nat) (img : Image) : List Nat :=
  bitsToBytes (extractBitsList k img)

/-- `raw_data[offset:offset + StegoHeader.SIZE]` followed by
`StegoHeader.parse` — one parse attempt of the scanner. -/
def parseAt (raw : List Nat) (offset : Int) : Except PyErr StegoHeader :=
  StegoHeader.parse (pySlice raw offset (offset + 32))

/-- `segment_size = StegoHeader.SIZE + min(len(raw_data) - offset - SIZE,
header.total_length - header.current_offset)` — computed in Python's
unbounded signed integers, so it can be zero or negative when
`current_offset > total_length`. -/
def segSizeOf (raw : List Nat) (offset : Int) (h : StegoHeader) : Int :=
  32 + min ((raw.length : Int) - offset - 32)
           ((h.total_length : Int) - (h.current_offset : Int))

/-- The scanning loop of `find_used_segments` (`image_handler.py` lines
132–147), fuel-indexed.  The first component is `true` when the loop
reached its own stop condition (`offset + SIZE > len(raw_data)`) and
`false` when the fuel ran out first; the second lists the recorded
`(offset, segment_size)` pairs in recording order. -/
def scanAux (raw : List Nat) : Nat → Int → Bool × List (Int × Int)
  | 0, _ => (false, [])
  | fuel + 1, offset =>
    if offset + 32 ≤ (raw.length : Int) then
      match parseAt raw offset with
      | .ok h =>
          let s := segSizeOf raw offset h
          let r := scanAux raw fuel (offset + s)
          (r.1, (offset, s) :: r.2)
      | .error _ => scanAux raw fuel (offset + 1)
    else (true, [])

/-- `find_used_segments` (`image_handler.py` lines 114–151): extract the
raw byte stream, return no segments when it is shorter than a header,
otherwise scan from offset 0. -/
def find_used_segments (k fuel : Nat) (img : Image) : Bool × List (Int × Int) :=
  let raw := extract_all_bits k img
  if raw.length < StegoHeader.SIZE then (true, [])
  else scanAux raw fuel 0

/-- The scanning loop of `read_all_messages` (`image_handler.py` lines
328–346): same control flow as `scanAux`, but it records the raw bytes
`raw_data[offset : offset + SIZE + message_part_size]` of each segment. -/
def readAllAux (raw : List Nat) : Nat → Int → Bool × List (List Nat)
  | 0, _ => (false, [])
  | fuel + 1, offset =>
    if offset + 32 ≤ (raw.length : Int) then
      match parseAt raw offset with
      | .ok h =>
          let s := segSizeOf raw offset h
          let r := readAllAux raw fuel (offset + s)
          (r.1, pySlice raw offset (offset + s) :: r.2)
      | .error _ => readAllAux raw fuel (offset + 1)
    else (true, [])

/-- `read_all_messages` (`image_handler.py` lines 308–351).  `none` means
the Python loop would not have terminated within the given fuel. -/
def read_all_messages (k fuel : Nat) (img : Image) : Option (List (List Nat)) :=
  let raw := extract_all_bits k img
  if raw.length < StegoHeader.SIZE then some []
  else
    match readAllAux raw fuel 0 with
    | (false, _) => none
    | (true, msgs) => some msgs

/-- `calculate_batch_capacity` (`image_handler.py` lines 58–112): per
image, the capacity, and `(bytes_used, bytes_available, capacity)` where
`bytes_used` sums the scanned segment sizes.  It returns a **3-tuple**
`(total_capacity, individual_capacities, space_info)`. -/
def calculate_batch_capacity (k fuel : Nat) :
    List Image → Option (Nat × List Nat × List (Int × Int × Nat))
  | [] => some (0, [], [])
  | img :: rest =>
    let c := calculate_capacity k img
    match find_used_segments k fuel img with
    | (false, _) => none
    | (true, segs) =>
      let used : Int := (segs.map Prod.snd).foldl (· + ·) 0
      match calculate_batch_capacity k fuel rest with
      | none => none
      | some (t, cs, sp) => some (c + t, c :: cs, (used, (c : Int) - used, c) :: sp)

end ImageContainer

namespace ImageContainer

/-- One byte flattened MSB-first: `(byte >> i) & 1` for `i in
range(7, -1, -1)` (`image_handler.py` lines 222–224). -/
def byteBitsMSB (b : Nat) : List Bool :=
  [b.testBit 7, b.testBit 6, b.testBit 5, b.testBit 4,
   b.testBit 3, b.testBit 2, b.testBit 1, b.testBit 0]

/-- The data flattened into an MSB-first bit stream. -/
def dataToBits : List Nat → List Bool
  | [] => []
  | b :: rest => byteBitsMSB b ++ dataToBits rest

/-- Zero-pad the bit stream to a multiple of `bits_per_channel`
(`image_handler.py` lines 227–228). -/
def padBits (k : Nat) (bits : List Bool) : List Bool :=
  if bits.length % k = 0 then bits
  else bits ++ List.replicate (k - bits.length % k) false

/-- The inner write of one sample: `pixels_flat[i] |= bits[bit_index] << j`
repeated for `j = 0, 1, …` over the chunk (LSB first within the sample). -/
def orBits (s : Nat) : List Bool → Nat → Nat
  | [], _ => s
  | b :: rest, j => orBits (s ||| (if b then 2 ^ j else 0)) rest (j + 1)

/-- The sample-modification loop of `write_data` (`image_handler.py` lines
234–254): skip samples before `start_bit`, stop once the bit stream is
exhausted, otherwise clear the low `k` bits of the sample
(`pixels_flat[i] &= inverse_mask`) and OR in the next
`min(k, remaining)` bits. -/
def embedLoop (k start : Nat) : List Nat → Nat → List Bool → List Nat
  | [], _, _ => []
  | s :: rest, i, bits =>
    if i * k < start then s :: embedLoop k start rest (i + 1) bits
    else if bits.isEmpty then s :: rest
    else
      let btw := min k bits.length
      orBits (Nat.land s (inverse_mask k)) (bits.take btw) 0
        :: embedLoop k start rest (i + 1) (bits.drop btw)

/-- The pure core of `write_data` (`image_handler.py` lines 186–265),
given the `next_free_byte` value the caller computed from
`find_used_segments`: check capacity
(`next_free_byte + len(data) > len(pixels_flat)*k // 8` raises), then
run the embedding loop from `start_bit = next_free_byte * 8`. -/
def write_data (k nextFree : Nat) (data : List Nat) (buf : Image) :
    Except PyErr Image :=
  let maxBytes := buf.length * k / 8
  if nextFree + data.length > maxBytes then .error .valueError
  else .ok (embedLoop k (nextFree * 8) buf 0 (padBits k (dataToBits data)))

end ImageContainer

/-! ## `crypto/hash.py` -/

/-- `verify_message_hash` (`hash.py` lines 17–27) relative to the content
hash function `H` (`hashlib.sha256(...).digest()` in the source):
`actual_hash[:len(expected_hash)] == expected_hash`. -/
def verify_message_hash (H : List Nat → List Nat)
    (message expected_hash : List Nat) : Bool :=
  (H message).take expected_hash.length == expected_hash

/-! ## `core/decoder.py` — `StegoDecoder` -/

namespace StegoDecoder

open ImageContainer

/-- The per-`message_id` accumulation record kept in the `messages`
dictionary (`decoder.py` lines 72–78). -/
structure MsgInfo where
  total_length : Nat
  message_hash : List Nat
  parts : List Nat
  bytes_read : Nat
  deriving DecidableEq, Repr

/-- The `messages` dictionary, as an association list in insertion
order, together with the `completed_messages` set. -/
abbrev DecodeState := List (Nat × MsgInfo) × List Nat

/-- Replace the entry for a key in the table. -/
def updateTable (mid : Nat) (info : MsgInfo) :
    List (Nat × MsgInfo) → List (Nat × MsgInfo)
  | [] => []
  | (m, i) :: rest =>
    if m = mid then (m, info) :: rest else (m, i) :: updateTable mid info rest

/-- `message_info["parts"][offset:offset+n] = part` on a bytearray. -/
def writeRange (parts : List Nat) (offset : Nat) (part : List Nat) : List Nat :=
  parts.take offset ++ part ++ parts.drop (offset + part.length)

/-- Processing of one raw segment (`decoder.py` lines 56–102).  The body
is wrapped in `try/except Exception`, so any error — in particular the
`AttributeError` from `header.message_id` at line 65 — only skips the
segment.  Everything after `getMessageId` is therefore unreachable; it is
still modelled, following the source. -/
def process_segment (st : DecodeState) (raw : List Nat) : DecodeState :=
  let (table, completed) := st
  if raw.length < StegoHeader.SIZE then st
  else
    match StegoHeader.parse (raw.take StegoHeader.SIZE) with
    | .error _ => st
    | .ok h =>
      match h.getMessageId with
      | .error _ => st
      | .ok mid =>
        if mid ∈ completed then st
        else
          let table₁ :=
            if (table.lookup mid).isNone then
              table ++ [(mid, ⟨h.total_length, h.message_hash,
                               List.replicate h.total_length 0, 0⟩)]
            else table
          match table₁.lookup mid with
          | none => (table₁, completed)
          | some info =>
            if h.total_length ≠ info.total_length then (table₁, completed)
            else
              let part_length :=
                min (raw.length - StegoHeader.SIZE)
                    (h.total_length - h.current_offset)
              let message_part := (raw.drop StegoHeader.SIZE).take part_length
              let info' : MsgInfo :=
                { info with
                  parts := writeRange info.parts h.current_offset message_part
                  bytes_read := info.bytes_read + message_part.length }
              let completed' :=
                if info'.bytes_read ≥ info'.total_length then mid :: completed
                else completed
              (updateTable mid info' table₁, completed')

/-- The per-image loop of `decode` (`decoder.py` lines 48–104): read all
segments of each image and fold them into the state.  `none` propagates a
scan that would not terminate (the Python call would hang). -/
def decodeLoop (k fuel : Nat) : List Image → DecodeState → Option DecodeState
  | [], st => some st
  | img :: rest, st =>
    match read_all_messages k fuel img with
    | none => none
    | some msgs => decodeLoop k fuel rest (msgs.foldl process_segment st)

/-- The reconstruction loop of `decode` (`decoder.py` lines 106–137):
keep complete messages, decrypt when a cipher is present (a failure drops
the message), then keep only messages whose truncated hash verifies. -/
def finalize (H : List Nat → List Nat) (D : List Nat → Except PyErr (List Nat))
    (hasCipher : Bool) : List (Nat × MsgInfo) → List (List Nat)
  | [] => []
  | (_, info) :: rest =>
    if info.bytes_read = info.total_length then
      match (if hasCipher then D info.parts else .ok info.parts) with
      | .error _ => finalize H D hasCipher rest
      | .ok decrypted =>
        if verify_message_hash H decrypted info.message_hash then
          decrypted :: finalize H D hasCipher rest
        else finalize H D hasCipher rest
    else finalize H D hasCipher rest

/-- `StegoDecoder.decode` (`decoder.py` lines 29–137).  `H` is the
content hash, `D` the cipher's decrypt, `hasCipher` whether a password
was supplied.  Returns the list of recovered messages, or `none` when a
segment scan would not have terminated within `fuel`. -/
def decode (H : List Nat → List Nat) (D : List Nat → Except PyErr (List Nat))
    (hasCipher : Bool) (k fuel : Nat) (imgs : List Image) :
    Option (List (List Nat)) :=
  match decodeLoop k fuel imgs ([], []) with
  | none => none
  | some (table, _) => some (finalize H D hasCipher table)

end StegoDecoder

/-! ## `core/encoder.py` — `StegoEncoder` -/

namespace StegoEncoder

open ImageContainer

/-- Models the Python statement
`total_capacity, individual_capacities = self.container.calculate_batch_capacity(image_paths)`
(`encoder.py` line 79).  `calculate_batch_capacity` returns the 3-tuple
`(total_capacity, individual_capacities, space_info)`
(`image_handler.py` line 112); unpacking a 3-tuple into two targets
raises `ValueError: too many values to unpack (expected 2)`. -/
def unpack2of3 (_ : α × β × γ) : Except PyErr (α × β) :=
  .error .valueError

/-- The splitting loop of `encode` (`encoder.py` lines 112–159),
unreachable after the line-79 `ValueError` but modelled from the source:
for each image, write `min(capacity, bytes_remaining)` bytes prefixed by
a header, skipping full images.  `write_data` re-scans the image for its
`next_free_byte` (`image_handler.py` lines 207–213).  The first result
component is the trace of `(image index, bytes embedded)` writes. -/
def encodeWriteLoop (k fuel : Nat) (messageHash combined : List Nat) :
    List Image → Nat → Nat → List (Nat × List Nat) →
    Option (List (Nat × List Nat) × Except PyErr (List Nat))
  | [], _, _, acc => some (acc, .ok (acc.map Prod.fst))
  | img :: rest, idx, written, acc =>
    if combined.length - written = 0 then some (acc, .ok (acc.map Prod.fst))
    else
      let capacity := calculate_capacity k img
      let btw := min capacity (combined.length - written)
      if btw = 0 then
        encodeWriteLoop k fuel messageHash combined rest (idx + 1) written acc
      else
        let hasNext := written + btw < combined.length
        match StegoHeader.create combined.length written messageHash hasNext with
        | .error e => some (acc, .error e)
        | .ok header =>
          let part := (combined.drop written).take btw
          match find_used_segments k fuel img with
          | (false, _) => none
          | (true, segs) =>
            let nextFree := (segs.map (fun p => p.1 + p.2)).foldl max 0
            match write_data k nextFree.toNat (header ++ part) img with
            | .error _ => some (acc, .error .ioError)
            | .ok _ =>
              encodeWriteLoop k fuel messageHash combined rest (idx + 1)
                (written + btw) (acc ++ [(idx, header ++ part)])

/-- `StegoEncoder.encode` (`encoder.py` lines 31–162) on an already
listed set of PNG images.  `H` is the content hash, `E` the cipher's
encrypt, `D` the decrypt handed to the inner `StegoDecoder`.  Control
flow from the source: no images raises `ValueError`; with no password,
`self.cipher` is `None` and `self.cipher.password` (line 62) raises
`AttributeError`; otherwise the existing messages are decoded (always
the empty list when the scan terminates), and line 79 unpacks the
3-tuple from `calculate_batch_capacity` into two variables, raising
`ValueError` before the capacity check, hashing, encryption or any
write.  Result: `(write trace, outcome)`; `none` when a segment scan
would not have terminated. -/
def encode (H E : List Nat → List Nat) (D : List Nat → Except PyErr (List Nat))
    (pw : Option String) (k fuel : Nat) (message : List Nat)
    (imgs : List Image) :
    Option (List (Nat × List Nat) × Except PyErr (List Nat)) :=
  if imgs.isEmpty then some ([], .error .valueError)
  else
    match pw with
    | none => some ([], .error .attributeError)
    | some _ =>
      match StegoDecoder.decode H D true k fuel imgs with
      | none => none
      | some existing =>
        if ¬ existing.isEmpty then some ([], .error .typeError)
        else
          let combined := message
          match calculate_batch_capacity k fuel imgs with
          | none => none
          | some t3 =>
            match unpack2of3 t3 with
            | .error e => some ([], .error e)
            | .ok (total_capacity, _) =>
              if combined.length > total_capacity then
                some ([], .error .valueError)
              else
                encodeWriteLoop k fuel (H combined) (E combined) imgs 0 0 []

/-- The total available capacity across the images, read off the
`space_info` component of `calculate_batch_capacity`. -/
def totalAvailable (k fuel : Nat) (imgs : List Image) : Option Int :=
  match calculate_batch_capacity k fuel imgs with
  | none => none
  | some (_, _, sp) => some ((sp.map (fun x => x.2.1)).foldl (· + ·) 0)

end StegoEncoder

/-! ## Supporting definitions for the claim theorems -/

namespace ImageContainer

/-- `StegoHeader.parse` attempted at a non-negative byte offset. -/
def parseAtN (raw : List Nat) (o : Nat) : Except PyErr StegoHeader :=
  StegoHeader.parse ((raw.drop o).take 32)

/-- The header parseable at offset `o` (if any) satisfies the invariant
`current_offset ≤ total_length` from §3 of the spec. -/
def saneAt (raw : List Nat) (o : Nat) : Bool :=
  match parseAtN raw o with
  | .ok hdr => decide (hdr.current_offset ≤ hdr.total_length)
  | .error _ => true

/-- Every header parseable anywhere in the stream satisfies
`current_offset ≤ total_length`. -/
def headerSane (raw : List Nat) : Prop :=
  ∀ o, o < raw.length → saneAt raw o = true

instance (raw : List Nat) : Decidable (headerSane raw) :=
  Nat.decidableBallLT _ _

end ImageContainer

/-- A 32-byte raw stream that parses as a valid header with
`total_length = 0` and `current_offset = 32`: the recorded segment size
is `32 + min(0, 0 - 32) = 0`, so the scanner's offset never advances. -/
def loopRaw : List Nat :=
  [83, 84, 69, 71, 1] ++ List.replicate 8 0 ++ [0, 0, 0, 0, 0, 0, 0, 32]
    ++ List.replicate 11 0

/-- A 128-sample image whose extracted raw byte stream at
`bits_per_channel = 2` is exactly `loopRaw` (sample `i` carries
extraction-order bits `2i` and `2i+1`, i.e. MSB-first bits of the
stream's bytes). -/
def imgLoop : ImageContainer.Image :=
  (List.range 128).map (fun i =>
    (if (loopRaw.getD (2 * i / 8) 0).testBit (7 - 2 * i % 8) then 1 else 0)
    + 2 * (if (loopRaw.getD ((2 * i + 1) / 8) 0).testBit (7 - (2 * i + 1) % 8)
        then 1 else 0))

/-- A 41-byte raw stream: a valid header (`total_length = 8`,
`current_offset = 0`) followed by 8 payload bytes and one stray byte. -/
def demoRaw : List Nat :=
  [83, 84, 69, 71, 1] ++ beBytes8 8 ++ beBytes8 0 ++ List.replicate 8 0
    ++ [0, 0, 0] ++ List.replicate 9 5

/-- The header parsed at offset 0 of `demoRaw`. -/
def demoHdr : StegoHeader :=
  { total_length := 8, current_offset := 0
    message_hash := List.replicate 8 0, has_next_part := false }

/-- The 32-byte record produced by `StegoHeader.create 5 0 (replicate 32 7) false`. -/
def hdr32demo : List Nat :=
  [83, 84, 69, 71, 1, 0, 0, 0, 0, 0, 0, 0, 5, 0, 0, 0, 0, 0, 0, 0, 0,
   7, 7, 7, 7, 7, 7, 7, 7, 0, 0, 0]

/-- A stand-in content hash for concrete witnesses (the real collaborator
is `hashlib.sha256`). -/
def hashDemo : List Nat → List Nat := fun _ => List.replicate 32 7

/-- A stand-in cipher encrypt for concrete witnesses. -/
def encryptDemo : List Nat → List Nat := fun x => x

/-- A stand-in cipher decrypt for concrete witnesses. -/
def decryptDemo : List Nat → Except PyErr (List Nat) := fun x => .ok x

/-- An all-zero 128-sample image: its raw stream at `k = 2` is 32 zero
bytes, which parse as no header. -/
def imgZero : ImageContainer.Image := List.replicate 128 0

/-- A second demo image. -/
def imgOnes : ImageContainer.Image := List.replicate 8 1

/-- A 96-sample image: capacity `96*2/8 - 32 = 0` at `k = 2`. -/
def imgCap0 : ImageContainer.Image := List.replicate 96 0

/-! ## Helper lemmas -/

theorem beU64_beBytes8 (n : Nat) (h : n < 2 ^ 64) : beU64 (beBytes8 n) = n := by
  simp only [beU64, beBytes8, List.foldl]
  omega

/-! ## C2 — header wire layout -/

/-- **C2** (counterexample).  The claim says `create` returns exactly
36 bytes with a `message_id` field; at a concrete input the record has
32 bytes (and `create` takes a `has_next_part` flag, not a
`message_id`). -/
theorem C2_counterexample :
    StegoHeader.create 5 0 (List.replicate 32 7) false = .ok hdr32demo
      ∧ hdr32demo.length = 32 ∧ hdr32demo.length ≠ 36 := by
  refine ⟨by decide, by decide, by decide⟩

/-- **C2** (amended).  For `total_length, current_offset < 2^64` and a
hash of at least 8 bytes, `StegoHeader.create` returns exactly 32 bytes
laid out big-endian as: bytes 0–3 the magic `b'STEG'`, byte 4 the
version 1, bytes 5–12 `total_length` (u64), bytes 13–20
`current_offset` (u64), bytes 21–28 the truncated hash, byte 29 the
`has_next_part` flag, bytes 30–31 zero; and `parse` of such a record
succeeds and returns those field values. -/
theorem C2_header_layout (t o : Nat) (hash : List Nat) (flag : Bool)
    (ht : t < 2 ^ 64) (ho : o < 2 ^ 64) (hh : 8 ≤ hash.length) :
    StegoHeader.create t o hash flag =
      .ok (StegoHeader.MAGIC ++ StegoHeader.VERSION ::
            (beBytes8 t ++ beBytes8 o ++ hash.take 8
              ++ [if flag then 1 else 0, 0, 0]))
    ∧ (StegoHeader.MAGIC ++ StegoHeader.VERSION ::
        (beBytes8 t ++ beBytes8 o ++ hash.take 8
          ++ [if flag then 1 else 0, 0, 0])).length = 32
    ∧ StegoHeader.parse (StegoHeader.MAGIC ++ StegoHeader.VERSION ::
        (beBytes8 t ++ beBytes8 o ++ hash.take 8
          ++ [if flag then 1 else 0, 0, 0])) =
        .ok ⟨t, o, hash.take 8, flag⟩ := by
  obtain _ | ⟨a1, hash⟩ := hash; · simp at hh
  obtain _ | ⟨a2, hash⟩ := hash; · simp at hh
  obtain _ | ⟨a3, hash⟩ := hash; · simp at hh
  obtain _ | ⟨a4, hash⟩ := hash; · simp at hh
  obtain _ | ⟨a5, hash⟩ := hash; · simp at hh
  obtain _ | ⟨a6, hash⟩ := hash; · simp at hh
  obtain _ | ⟨a7, hash⟩ := hash; · simp at hh
  obtain _ | ⟨a8, hash⟩ := hash; · simp at hh
  refine ⟨?_, rfl, ?_⟩
  · unfold StegoHeader.create
    rw [if_neg (by omega)]
    rfl
  · unfold StegoHeader.parse
    rw [if_neg (fun h => h rfl), if_neg (fun h => h rfl),
        if_neg (fun h => h rfl)]
    have e1 : beU64 (((StegoHeader.MAGIC ++ StegoHeader.VERSION ::
        (beBytes8 t ++ beBytes8 o ++ (a1 :: a2 :: a3 :: a4 :: a5 :: a6 :: a7
          :: a8 :: hash).take 8 ++ [if flag then 1 else 0, 0, 0])).drop 5).take 8)
        = t := by
      rw [show (((StegoHeader.MAGIC ++ StegoHeader.VERSION ::
        (beBytes8 t ++ beBytes8 o ++ (a1 :: a2 :: a3 :: a4 :: a5 :: a6 :: a7
          :: a8 :: hash).take 8 ++ [if flag then 1 else 0, 0, 0])).drop 5).take 8)
          = beBytes8 t from rfl]
      exact beU64_beBytes8 t ht
    have e2 : beU64 (((StegoHeader.MAGIC ++ StegoHeader.VERSION ::
        (beBytes8 t ++ beBytes8 o ++ (a1 :: a2 :: a3 :: a4 :: a5 :: a6 :: a7
          :: a8 :: hash).take 8 ++ [if flag then 1 else 0, 0, 0])).drop 13).take 8)
        = o := by
      rw [show (((StegoHeader.MAGIC ++ StegoHeader.VERSION ::
        (beBytes8 t ++ beBytes8 o ++ (a1 :: a2 :: a3 :: a4 :: a5 :: a6 :: a7
          :: a8 :: hash).take 8 ++ [if flag then 1 else 0, 0, 0])).drop 13).take 8)
          = beBytes8 o from rfl]
      exact beU64_beBytes8 o ho
    rw [e1, e2]
    have e4 : ((StegoHeader.MAGIC ++ StegoHeader.VERSION ::
        (beBytes8 t ++ beBytes8 o ++ (a1 :: a2 :: a3 :: a4 :: a5 :: a6 :: a7
          :: a8 :: hash).take 8 ++ [if flag then 1 else 0, 0, 0])).getD 29 0 != 0)
        = flag := by
      cases flag <;> rfl
    rw [e4]
    rfl

/-- Witness for `C2_header_layout` at `t = 5`, `o = 3`, a 32-byte hash of
nines, `flag = true`. -/
theorem C2_header_layout_witness :
    StegoHeader.create 5 3 (List.replicate 32 9) true =
      .ok (StegoHeader.MAGIC ++ StegoHeader.VERSION ::
            (beBytes8 5 ++ beBytes8 3 ++ (List.replicate 32 9).take 8
              ++ [if true then 1 else 0, 0, 0]))
    ∧ (StegoHeader.MAGIC ++ StegoHeader.VERSION ::
        (beBytes8 5 ++ beBytes8 3 ++ (List.replicate 32 9).take 8
          ++ [if true then 1 else 0, 0, 0])).length = 32
    ∧ StegoHeader.parse (StegoHeader.MAGIC ++ StegoHeader.VERSION ::
        (beBytes8 5 ++ beBytes8 3 ++ (List.replicate 32 9).take 8
          ++ [if true then 1 else 0, 0, 0])) =
        .ok ⟨5, 3, (List.replicate 32 9).take 8, true⟩ :=
  C2_header_layout 5 3 (List.replicate 32 9) true (by norm_num)
    (by norm_num) (by norm_num)

/-! ## Decoder lemmas: every segment is dropped -/

theorem process_segment_id (st : StegoDecoder.DecodeState) (raw : List Nat) :
    StegoDecoder.process_segment st raw = st := by
  obtain ⟨table, completed⟩ := st
  unfold StegoDecoder.process_segment
  by_cases h : raw.length < StegoHeader.SIZE
  · simp [h]
  · simp only [h, if_false]
    cases StegoHeader.parse (raw.take StegoHeader.SIZE) <;>
      simp [StegoHeader.getMessageId]

theorem foldl_process_segment (msgs : List (List Nat))
    (st : StegoDecoder.DecodeState) :
    msgs.foldl StegoDecoder.process_segment st = st := by
  induction msgs generalizing st with
  | nil => rfl
  | cons m rest ih => simp [List.foldl_cons, process_segment_id, ih]

theorem decodeLoop_id (k fuel : Nat) (imgs : List ImageContainer.Image)
    (st r : StegoDecoder.DecodeState)
    (h : StegoDecoder.decodeLoop k fuel imgs st = some r) : r = st := by
  induction imgs generalizing st with
  | nil => simpa [StegoDecoder.decodeLoop] using h.symm
  | cons img rest ih =>
    unfold StegoDecoder.decodeLoop at h
    cases hr : ImageContainer.read_all_messages k fuel img with
    | none => rw [hr] at h; exact absurd h (by simp)
    | some msgs =>
      rw [hr] at h
      simp only [foldl_process_segment] at h
      exact ih st h

theorem decode_eq_nil (H : List Nat → List Nat)
    (D : List Nat → Except PyErr (List Nat)) (hc : Bool) (k fuel : Nat)
    (imgs : List ImageContainer.Image) (r : List (List Nat))
    (h : StegoDecoder.decode H D hc k fuel imgs = some r) : r = [] := by
  unfold StegoDecoder.decode at h
  cases hdl : StegoDecoder.decodeLoop k fuel imgs ([], []) with
  | none => rw [hdl] at h; exact absurd h (by simp)
  | some st =>
    rw [hdl] at h
    have hst : st = (([] : List (Nat × StegoDecoder.MsgInfo)), ([] : List Nat)) :=
      decodeLoop_id k fuel imgs ([], []) st hdl
    subst hst
    simp [StegoDecoder.finalize] at h
    exact h

/-! ## Encoder lemma: the tuple unpack at `encoder.py` line 79 -/

theorem encode_unpack_error (H E : List Nat → List Nat)
    (D : List Nat → Except PyErr (List Nat)) (pw : String) (k fuel : Nat)
    (msg : List Nat) (imgs : List ImageContainer.Image)
    (r : List (Nat × List Nat) × Except PyErr (List Nat))
    (hne : imgs ≠ [])
    (h : StegoEncoder.encode H E D (some pw) k fuel msg imgs = some r) :
    r = ([], .error .valueError) := by
  unfold StegoEncoder.encode at h
  rw [if_neg (by simpa [List.isEmpty_iff] using hne)] at h
  cases hdec : StegoDecoder.decode H D true k fuel imgs with
  | none => rw [hdec] at h; exact absurd h (by simp)
  | some ex =>
    rw [hdec] at h
    have hex : ex = [] := decode_eq_nil H D true k fuel imgs ex hdec
    subst hex
    dsimp only [] at h
    rw [if_neg (by simp)] at h
    cases hbc : ImageContainer.calculate_batch_capacity k fuel imgs with
    | none => rw [hbc] at h; exact absurd h (by simp)
    | some t3 =>
      rw [hbc] at h
      simp only [StegoEncoder.unpack2of3, Option.some.injEq] at h
      exact h.symm

/-! ## C1 — round trip -/

/-- **C1** (against the code as written).  `reveal ∘ hide` never recovers
the payload: `encode` with a password and a single image always raises
`ValueError` at the tuple unpack of `encoder.py` line 79 (writing
nothing), and `decode` of any image list returns `[]` because every
segment is dropped by the `AttributeError` on the missing
`header.message_id` field. -/
theorem C1_roundtrip_broken (H E : List Nat → List Nat)
    (D : List Nat → Except PyErr (List Nat)) (pw : String) (k fuel : Nat)
    (m : List Nat) (img : ImageContainer.Image)
    (r : List (Nat × List Nat) × Except PyErr (List Nat))
    (henc : StegoEncoder.encode H E D (some pw) k fuel m [img] = some r) :
    r.1 = [] ∧ r.2 = .error .valueError ∧
      ∀ imgs r', StegoDecoder.decode H D true k fuel imgs = some r' →
        r' = [] := by
  have hr := encode_unpack_error H E D pw k fuel m [img] r (by simp) henc
  subst hr
  exact ⟨rfl, rfl, fun imgs r' h => decode_eq_nil H D true k fuel imgs r' h⟩

/-- Witness for `C1_roundtrip_broken`: a concrete 3-byte payload, one
128-sample image, password present. -/
theorem C1_roundtrip_broken_witness :
    (([], Except.error PyErr.valueError) :
        List (Nat × List Nat) × Except PyErr (List Nat)).1 = [] ∧
    (([], Except.error PyErr.valueError) :
        List (Nat × List Nat) × Except PyErr (List Nat)).2 =
      .error .valueError ∧
    ∀ imgs r', StegoDecoder.decode hashDemo decryptDemo true 2 5 imgs =
        some r' → r' = [] :=
  C1_roundtrip_broken hashDemo encryptDemo decryptDemo "p" 2 5 [1, 2, 3]
    imgZero ([], Except.error PyErr.valueError) (by decide)

/-! ## C3 — capacity boundary -/

/-- **C3** (against the code as written).  Even with the payload length
exactly equal to the total available capacity — the case the claim says
must succeed — `encode` raises `ValueError` (from the tuple unpack at
`encoder.py` line 79, before the capacity comparison is ever made) and
performs no write; the raised error is a plain `ValueError`, not a
dedicated `CapacityError`. -/
theorem C3_exact_capacity_still_fails (H E : List Nat → List Nat)
    (D : List Nat → Except PyErr (List Nat)) (pw : String) (k fuel : Nat)
    (msg : List Nat) (imgs : List ImageContainer.Image) (a : Int)
    (r : List (Nat × List Nat) × Except PyErr (List Nat))
    (hne : imgs ≠ [])
    (hcap : StegoEncoder.totalAvailable k fuel imgs = some a)
    (hexact : (msg.length : Int) = a)
    (henc : StegoEncoder.encode H E D (some pw) k fuel msg imgs = some r) :
    r.2 = .error .valueError ∧ r.1 = [] := by
  have hr := encode_unpack_error H E D pw k fuel msg imgs r hne henc
  subst hr
  exact ⟨rfl, rfl⟩

/-- Witness for `C3_exact_capacity_still_fails`: the empty payload on a
96-sample image whose available capacity is exactly 0 bytes. -/
theorem C3_exact_capacity_still_fails_witness :
    (([], Except.error PyErr.valueError) :
        List (Nat × List Nat) × Except PyErr (List Nat)).2 =
      .error .valueError ∧
    (([], Except.error PyErr.valueError) :
        List (Nat × List Nat) × Except PyErr (List Nat)).1 = [] :=
  C3_exact_capacity_still_fails hashDemo encryptDemo decryptDemo "p" 2 5
    [] [imgCap0] 0 ([], Except.error PyErr.valueError) (by decide)
    (by decide) (by decide) (by decide)

/-! ## C4 — integrity filtering -/

/-- **C4** (against the code as written).  `decode` returns no message at
all — every segment's processing raises `AttributeError` on the missing
`header.message_id` field (`decoder.py` line 65) and is skipped — so in
particular a valid message is never returned alongside a corrupt one. -/
theorem C4_decode_returns_nothing (H : List Nat → List Nat)
    (D : List Nat → Except PyErr (List Nat)) (hc : Bool) (k fuel : Nat)
    (imgs : List ImageContainer.Image) (r : List (List Nat))
    (h : StegoDecoder.decode H D hc k fuel imgs = some r) : r = [] :=
  decode_eq_nil H D hc k fuel imgs r h

/-- Witness for `C4_decode_returns_nothing` on a concrete image. -/
theorem C4_decode_returns_nothing_witness : ([] : List (List Nat)) = [] :=
  C4_decode_returns_nothing hashDemo decryptDemo true 2 5 [imgZero] []
    (by decide)

/-! ## C7 — order independence -/

/-- **C7** (against the code as written).  The recovered set is indeed
independent of the order the images are passed in, but only degenerately:
for every permutation both runs return the empty list — no message is
ever reassembled (the `message_id` grouping the decoder relies on does
not exist on the parsed header). -/
theorem C7_order_independence_degenerate (H : List Nat → List Nat)
    (D : List Nat → Except PyErr (List Nat)) (hc : Bool) (k fuel : Nat)
    (imgs₁ imgs₂ : List ImageContainer.Image) (r₁ r₂ : List (List Nat))
    (hperm : imgs₁.Perm imgs₂)
    (h₁ : StegoDecoder.decode H D hc k fuel imgs₁ = some r₁)
    (h₂ : StegoDecoder.decode H D hc k fuel imgs₂ = some r₂) :
    r₁ = r₂ ∧ r₁ = [] := by
  have e₁ := decode_eq_nil H D hc k fuel imgs₁ r₁ h₁
  have e₂ := decode_eq_nil H D hc k fuel imgs₂ r₂ h₂
  exact ⟨e₁.trans e₂.symm, e₁⟩

/-- Witness for `C7_order_independence_degenerate` on two images passed
in both orders. -/
theorem C7_order_independence_degenerate_witness :
    ([] : List (List Nat)) = [] ∧ ([] : List (List Nat)) = [] :=
  C7_order_independence_degenerate hashDemo decryptDemo true 2 5
    [imgZero, imgOnes] [imgOnes, imgZero] [] [] (by decide) (by decide)
    (by decide)

/-! ## C8 — hash placement -/

/-- **C8** (against the code as written).  No header is ever written by
`encode`: every control path ends in an error (missing password, empty
image list, or the tuple unpack `ValueError` of `encoder.py` line 79)
before the write loop, so the write trace is always empty and no header
carrying a truncated plaintext hash is ever embedded. -/
theorem C8_no_header_written (H E : List Nat → List Nat)
    (D : List Nat → Except PyErr (List Nat)) (pw : Option String)
    (k fuel : Nat) (msg : List Nat) (imgs : List ImageContainer.Image)
    (r : List (Nat × List Nat) × Except PyErr (List Nat))
    (h : StegoEncoder.encode H E D pw k fuel msg imgs = some r) :
    r.1 = [] := by
  cases imgs with
  | nil =>
    have e : StegoEncoder.encode H E D pw k fuel msg [] =
        some (([] : List (Nat × List Nat)), Except.error PyErr.valueError) :=
      rfl
    rw [e] at h
    cases Option.some.inj h
    rfl
  | cons img rest =>
    cases pw with
    | none =>
      have e : StegoEncoder.encode H E D none k fuel msg (img :: rest) =
          some (([] : List (Nat × List Nat)),
            Except.error PyErr.attributeError) := rfl
      rw [e] at h
      cases Option.some.inj h
      rfl
    | some p =>
      have hr := encode_unpack_error H E D p k fuel msg (img :: rest) r
        (by simp) h
      rw [hr]

/-- Witness for `C8_no_header_written`. -/
theorem C8_no_header_written_witness :
    (([], Except.error PyErr.valueError) :
        List (Nat × List Nat) × Except PyErr (List Nat)).1 = [] :=
  C8_no_header_written hashDemo encryptDemo decryptDemo (some "p") 2 5
    [1, 2, 3] [imgZero] ([], Except.error PyErr.valueError) (by decide)

/-! ## C10 — encoding without a password -/

/-- **C10** (confirmed).  With `password=None` the encoder's `self.cipher`
is `None`, and `encode` always fails before any image is opened for
capacity or modified: with a non-empty image list it raises exactly the
`AttributeError` from `self.cipher.password` (`encoder.py` line 62), and
with an empty list the earlier `ValueError` for a directory without PNG
images; in both cases no write occurs. -/
theorem C10_encode_requires_password (H E : List Nat → List Nat)
    (D : List Nat → Except PyErr (List Nat)) (k fuel : Nat)
    (msg : List Nat) (imgs : List ImageContainer.Image) :
    (∃ e, StegoEncoder.encode H E D none k fuel msg imgs =
        some ([], .error e)) ∧
    (imgs ≠ [] → StegoEncoder.encode H E D none k fuel msg imgs =
        some ([], .error .attributeError)) := by
  cases imgs with
  | nil => exact ⟨⟨.valueError, rfl⟩, fun hne => absurd rfl hne⟩
  | cons img rest => exact ⟨⟨.attributeError, rfl⟩, fun _ => rfl⟩

/-- Witness for `C10_encode_requires_password` on a non-empty image
list. -/
theorem C10_encode_requires_password_witness :
    StegoEncoder.encode hashDemo encryptDemo decryptDemo none 2 5 [1, 2, 3]
      [imgZero] = some ([], .error .attributeError) :=
  (C10_encode_requires_password hashDemo encryptDemo decryptDemo 2 5
    [1, 2, 3] [imgZero]).2 (by decide)

/-! ## C5 — scanner termination -/

theorem scanAux_loopRaw_step (n : Nat) :
    ImageContainer.scanAux loopRaw (n + 1) 0 =
      ((ImageContainer.scanAux loopRaw n 0).1,
        ((0 : Int), (0 : Int)) :: (ImageContainer.scanAux loopRaw n 0).2) := by
  have hp : ImageContainer.parseAt loopRaw 0 =
      Except.ok ⟨0, 32, List.replicate 8 0, false⟩ := by decide
  rw [ImageContainer.scanAux, if_pos (by decide), hp]
  have hs : ImageContainer.segSizeOf loopRaw 0 ⟨0, 32, List.replicate 8 0, false⟩
      = 0 := by decide
  dsimp only []
  rw [hs]
  norm_num

theorem scanAux_loopRaw_false (fuel : Nat) :
    (ImageContainer.scanAux loopRaw fuel 0).1 = false := by
  induction fuel with
  | zero => rfl
  | succ n ih => rw [scanAux_loopRaw_step]; exact ih

/-- **C5** (against the code as written).  The scanner does **not**
terminate on every extracted byte stream: on the image `imgLoop`, whose
raw stream is a valid header with `total_length = 0` and
`current_offset = 32`, the recorded segment size is
`32 + min(0, 0 - 32) = 0`, the offset never advances, and
`find_used_segments` never reaches its stop condition — for every fuel
bound the loop is still running. -/
theorem C5_scanner_nonterminating (fuel : Nat) :
    (ImageContainer.find_used_segments 2 fuel imgLoop).1 = false := by
  have hraw : ImageContainer.extract_all_bits 2 imgLoop = loopRaw := by decide
  unfold ImageContainer.find_used_segments
  rw [hraw, if_neg (by decide)]
  exact scanAux_loopRaw_false fuel

/-! ## C6 — scan step behavior and segment ordering -/

theorem pySlice_natCast (l : List α) (o : Nat) (h : o + 32 ≤ l.length) :
    pySlice l (o : Int) ((o : Int) + 32) = (l.drop o).take 32 := by
  unfold pySlice pyBound
  rw [if_neg (by omega), if_neg (by omega)]
  have h1 : ((o : Int)).toNat = o := Int.toNat_natCast o
  have h2 : ((o : Int) + 32).toNat = o + 32 := by omega
  rw [h1, h2]
  have h3 : o ⊓ l.length = o := by omega
  have h4 : (o + 32) ⊓ l.length = o + 32 := by omega
  rw [h3, h4]
  show List.take (o + 32 - o) (List.drop o l) = List.take 32 (List.drop o l)
  have h5 : o + 32 - o = 32 := by omega
  rw [h5]

theorem parseAt_natCast (raw : List Nat) (o : Nat) (h : o + 32 ≤ raw.length) :
    ImageContainer.parseAt raw (o : Int) = ImageContainer.parseAtN raw o := by
  unfold ImageContainer.parseAt ImageContainer.parseAtN
  rw [pySlice_natCast raw o h]

theorem headerSane_le (raw : List Nat) (hs : ImageContainer.headerSane raw)
    (o : Nat) (hdr : StegoHeader) (hlen : o + 32 ≤ raw.length)
    (hp : ImageContainer.parseAtN raw o = .ok hdr) :
    hdr.current_offset ≤ hdr.total_length := by
  have h := hs o (by omega)
  unfold ImageContainer.saneAt at h
  rw [hp] at h
  exact of_decide_eq_true h

theorem scan_chain (raw : List Nat) (hs : ImageContainer.headerSane raw) :
    ∀ (fuel : Nat) (offset : Int), 0 ≤ offset →
      List.Chain' (fun a b : Int × Int => a.1 < b.1)
          ((ImageContainer.scanAux raw fuel offset).2) ∧
        ∀ p ∈ (ImageContainer.scanAux raw fuel offset).2, offset ≤ p.1 := by
  intro fuel
  induction fuel with
  | zero =>
    intro offset h0
    exact ⟨List.chain'_nil, by simp [ImageContainer.scanAux]⟩
  | succ n ih =>
    intro offset h0
    by_cases hg : offset + 32 ≤ (raw.length : Int)
    · cases hp : ImageContainer.parseAt raw offset with
      | error e =>
        rw [ImageContainer.scanAux, if_pos hg, hp]
        obtain ⟨ch, bnd⟩ := ih (offset + 1) (by omega)
        exact ⟨ch, fun p hmem => by have := bnd p hmem; omega⟩
      | ok hdr =>
        have hoeq : ((offset.toNat : Nat) : Int) = offset :=
          Int.toNat_of_nonneg h0
        have hlen : offset.toNat + 32 ≤ raw.length := by omega
        have hsane : hdr.current_offset ≤ hdr.total_length := by
          refine headerSane_le raw hs offset.toNat hdr hlen ?_
          rw [← parseAt_natCast raw offset.toNat hlen, hoeq]
          exact hp
        have hseg : 32 ≤ ImageContainer.segSizeOf raw offset hdr := by
          unfold ImageContainer.segSizeOf
          omega
        rw [ImageContainer.scanAux, if_pos hg, hp]
        dsimp only []
        obtain ⟨ch, bnd⟩ :=
          ih (offset + ImageContainer.segSizeOf raw offset hdr) (by omega)
        constructor
        · rw [List.chain'_cons']
          refine ⟨fun y hy => ?_, ch⟩
          have := bnd y (List.mem_of_mem_head? hy)
          dsimp only [] at this ⊢
          omega
        · intro p hmem
          rcases List.mem_cons.mp hmem with rfl | hmem'
          · omega
          · have := bnd p hmem'
            omega
    · rw [ImageContainer.scanAux, if_neg hg]
      exact ⟨List.chain'_nil, by simp⟩

/-- **C6** (counterexample).  The recorded segment list is **not** always
strictly increasing in offset: on `loopRaw` (a header with
`current_offset > total_length`, so `segment_size = 0`) the scanner
records offset 0 again and again. -/
theorem C6_counterexample :
    (ImageContainer.scanAux loopRaw 2 0).2 = [(0, 0), (0, 0)] ∧
      ¬ List.Chain' (fun a b : Int × Int => a.1 < b.1)
          ((ImageContainer.scanAux loopRaw 2 0).2) := by
  constructor
  · decide
  · intro hch
    have he : (ImageContainer.scanAux loopRaw 2 0).2 =
        [((0 : Int), (0 : Int)), (0, 0)] := by decide
    rw [he, List.chain'_cons] at hch
    exact absurd hch.1 (lt_irrefl _)

/-- **C6** (amended).  The scan proceeds from offset 0 exactly as the
claim describes — on a successful parse it records
`(offset, HEADER_SIZE + min(available_raw - HEADER_SIZE,
total_length - current_offset))` and advances by exactly that amount, on
a parse failure it advances by exactly 1 byte — and the recorded offsets
are strictly increasing **provided** every header parseable in the
stream satisfies `current_offset ≤ total_length` (for adversarial
headers violating that invariant the recorded length can be ≤ 0 and the
offset can repeat, see `C6_counterexample`). -/
theorem C6_scan_step_and_order :
    (∀ (raw : List Nat) (fuel : Nat) (offset : Int) (hdr : StegoHeader),
        offset + 32 ≤ (raw.length : Int) →
        ImageContainer.parseAt raw offset = .ok hdr →
        ImageContainer.scanAux raw (fuel + 1) offset =
          ((ImageContainer.scanAux raw fuel
              (offset + ImageContainer.segSizeOf raw offset hdr)).1,
            (offset, ImageContainer.segSizeOf raw offset hdr) ::
              (ImageContainer.scanAux raw fuel
                (offset + ImageContainer.segSizeOf raw offset hdr)).2)) ∧
    (∀ (raw : List Nat) (fuel : Nat) (offset : Int) (e : PyErr),
        offset + 32 ≤ (raw.length : Int) →
        ImageContainer.parseAt raw offset = .error e →
        ImageContainer.scanAux raw (fuel + 1) offset =
          ImageContainer.scanAux raw fuel (offset + 1)) ∧
    (∀ (raw : List Nat) (fuel : Nat), ImageContainer.headerSane raw →
        List.Chain' (fun a b : Int × Int => a.1 < b.1)
          ((ImageContainer.scanAux raw fuel 0).2)) := by
  refine ⟨?_, ?_, ?_⟩
  · intro raw fuel offset hdr hg hp
    rw [ImageContainer.scanAux, if_pos hg, hp]
  · intro raw fuel offset e hg hp
    rw [ImageContainer.scanAux, if_pos hg, hp]
  · intro raw fuel hs
    exact (scan_chain raw hs fuel 0 (by omega)).1

/-- Witness for `C6_scan_step_and_order` on `demoRaw`: a successful parse
at offset 0, a failed parse at offset 1, and the ordering property. -/
theorem C6_scan_step_and_order_witness :
    ImageContainer.scanAux demoRaw 3 0 =
      ((ImageContainer.scanAux demoRaw 2
          (0 + ImageContainer.segSizeOf demoRaw 0 demoHdr)).1,
        ((0 : Int), ImageContainer.segSizeOf demoRaw 0 demoHdr) ::
          (ImageContainer.scanAux demoRaw 2
            (0 + ImageContainer.segSizeOf demoRaw 0 demoHdr)).2) ∧
    ImageContainer.scanAux demoRaw 3 1 = ImageContainer.scanAux demoRaw 2 2 ∧
    List.Chain' (fun a b : Int × Int => a.1 < b.1)
      ((ImageContainer.scanAux demoRaw 4 0).2) :=
  ⟨C6_scan_step_and_order.1 demoRaw 2 0 demoHdr (by decide) (by decide),
   C6_scan_step_and_order.2.1 demoRaw 2 1 PyErr.valueError (by decide)
     (by decide),
   C6_scan_step_and_order.2.2 demoRaw 4 (by decide)⟩

/-! ## C9 — frame property of the embedding loop -/

theorem lt_ceil_iff (k start i : Nat) (hk : 1 ≤ k) :
    i < (start + k - 1) / k ↔ i * k < start := by
  rw [Nat.lt_iff_add_one_le, Nat.le_div_iff_mul_le hk]
  have e : (i + 1) * k = i * k + k := by ring
  omega

theorem ceil_mul_ge (k start : Nat) (hk : 1 ≤ k) :
    start ≤ ((start + k - 1) / k) * k := by
  have h1 := Nat.div_add_mod (start + k - 1) k
  have h2 := Nat.mod_lt (start + k - 1) (show 0 < k by omega)
  have e : ((start + k - 1) / k) * k = k * ((start + k - 1) / k) :=
    Nat.mul_comm _ _
  omega

theorem ceil_pos (k len : Nat) (hk : 1 ≤ k) (hlen : 1 ≤ len) :
    1 ≤ (len + k - 1) / k := by
  rw [Nat.le_div_iff_mul_le hk]
  omega

theorem ceil_drop (k len : Nat) (hk : 1 ≤ k) (hlen : 1 ≤ len) :
    (len - min k len + k - 1) / k = (len + k - 1) / k - 1 := by
  by_cases h : k ≤ len
  · have e1 : min k len = k := by omega
    have e2 : len - k + k - 1 = len - 1 := by omega
    have e3 : len + k - 1 = (len - 1) + k := by omega
    rw [e1]
    rw [e2]
    rw [e3]
    rw [Nat.add_div_right _ (show 0 < k by omega)]
    rw [Nat.add_sub_cancel]
  · have e1 : min k len = len := by omega
    have e2 : len - len + k - 1 = k - 1 := by omega
    have e3 : len + k - 1 = (len - 1) + k := by omega
    rw [e1]
    rw [e2]
    rw [e3]
    rw [Nat.add_div_right _ (show 0 < k by omega)]
    rw [Nat.div_eq_of_lt (show k - 1 < k by omega)]
    rw [Nat.div_eq_of_lt (show len - 1 < k by omega)]

theorem lor_shiftRight_high (s b m : Nat) (hb : b < 2 ^ m) :
    (s ||| b) >>> m = s >>> m := by
  apply Nat.eq_of_testBit_eq
  intro i
  rw [Nat.testBit_shiftRight, Nat.testBit_shiftRight, Nat.testBit_lor]
  have hbi : b.testBit (m + i) = false :=
    Nat.testBit_lt_two_pow
      (lt_of_lt_of_le hb (Nat.pow_le_pow_right (by norm_num) (by omega)))
  rw [hbi, Bool.or_false]

theorem orBits_shiftRight_high (m : Nat) :
    ∀ (chunk : List Bool) (j s : Nat), j + chunk.length ≤ m →
      (ImageContainer.orBits s chunk j) >>> m = s >>> m := by
  intro chunk
  induction chunk with
  | nil => intro j s _; rfl
  | cons b rest ih =>
    intro j s hle
    have h1 := ih (j + 1) (s ||| (if b then 2 ^ j else 0))
      (by simp at hle ⊢; omega)
    rw [ImageContainer.orBits]
    rw [h1]
    apply lor_shiftRight_high
    have : (2 : Nat) ^ j < 2 ^ m := by
      apply Nat.pow_lt_pow_right (by norm_num)
      simp at hle
      omega
    cases b <;> simp <;> omega

set_option maxRecDepth 4096 in
theorem land_inverse_mask_high (k s : Nat) (hk1 : 1 ≤ k) (hk4 : k ≤ 4)
    (hs : s < 256) :
    (Nat.land s (ImageContainer.inverse_mask k)) >>> k = s >>> k := by
  interval_cases k
  · revert hs; revert s; decide
  · revert hs; revert s; decide
  · revert hs; revert s; decide
  · revert hs; revert s; decide

theorem writeSample_high (k s : Nat) (chunk : List Bool) (hk1 : 1 ≤ k)
    (hk4 : k ≤ 4) (hs : s < 256) (hc : chunk.length ≤ k) :
    (ImageContainer.orBits (Nat.land s (ImageContainer.inverse_mask k))
        chunk 0) >>> k = s >>> k := by
  rw [orBits_shiftRight_high k chunk 0 _ (by omega)]
  exact land_inverse_mask_high k s hk1 hk4 hs

theorem embedLoop_length (k start : Nat) :
    ∀ (buf : List Nat) (i : Nat) (bits : List Bool),
      (ImageContainer.embedLoop k start buf i bits).length = buf.length := by
  intro buf
  induction buf with
  | nil => intro i bits; rfl
  | cons s rest ih =>
    intro i bits
    rw [ImageContainer.embedLoop]
    by_cases h1 : i * k < start
    · rw [if_pos h1]
      simp [ih]
    · rw [if_neg h1]
      by_cases h2 : bits.isEmpty
      · rw [if_pos h2]
      · rw [if_neg h2]
        simp [ih]

theorem embedLoop_high (k start : Nat) (hk1 : 1 ≤ k) (hk4 : k ≤ 4) :
    ∀ (buf : List Nat) (i : Nat) (bits : List Bool),
      (∀ s ∈ buf, s < 256) → ∀ j : Nat,
        (ImageContainer.embedLoop k start buf i bits).getD j 0 >>> k =
          buf.getD j 0 >>> k := by
  intro buf
  induction buf with
  | nil => intro i bits _ j; rfl
  | cons s rest ih =>
    intro i bits hb j
    have hs : s < 256 := hb s (by simp)
    have hrest : ∀ x ∈ rest, x < 256 := fun x hx => hb x (by simp [hx])
    rw [ImageContainer.embedLoop]
    by_cases h1 : i * k < start
    · rw [if_pos h1]
      cases j with
      | zero => rfl
      | succ j' => rw [List.getD_cons_succ, List.getD_cons_succ]
                   exact ih (i + 1) bits hrest j'
    · rw [if_neg h1]
      by_cases h2 : bits.isEmpty
      · rw [if_pos h2]
      · rw [if_neg h2]
        cases j with
        | zero =>
          rw [List.getD_cons_zero, List.getD_cons_zero]
          apply writeSample_high k s _ hk1 hk4 hs
          rw [List.length_take]
          omega
        | succ j' =>
          rw [List.getD_cons_succ, List.getD_cons_succ]
          exact ih (i + 1) _ hrest j'

theorem embedLoop_beyond (k start : Nat) (hk : 1 ≤ k) :
    ∀ (buf : List Nat) (i : Nat) (bits : List Bool), start ≤ i * k →
      ∀ j : Nat, (bits.length + k - 1) / k ≤ j →
        (ImageContainer.embedLoop k start buf i bits).getD j 0 =
          buf.getD j 0 := by
  intro buf
  induction buf with
  | nil => intro i bits _ j _; rfl
  | cons s rest ih =>
    intro i bits hstart j hj
    rw [ImageContainer.embedLoop]
    rw [if_neg (by omega)]
    by_cases h2 : bits.isEmpty
    · rw [if_pos h2]
    · rw [if_neg h2]
      have hlen : 1 ≤ bits.length := by
        cases bits with
        | nil => exact absurd rfl h2
        | cons b bs => simp
      cases j with
      | zero =>
        exact absurd hj
          (by have := ceil_pos k bits.length hk hlen; omega)
      | succ j' =>
        rw [List.getD_cons_succ, List.getD_cons_succ]
        apply ih (i + 1) (bits.drop (min k bits.length))
        · have e : (i + 1) * k = i * k + k := by ring
          omega
        · rw [List.length_drop]
          rw [ceil_drop k bits.length hk hlen]
          omega

theorem embedLoop_untouched (k start : Nat) (hk : 1 ≤ k) :
    ∀ (buf : List Nat) (i : Nat) (bits : List Bool),
      i ≤ (start + k - 1) / k → ∀ j : Nat,
        ((i + j) * k < start ∨
          (start + k - 1) / k + (bits.length + k - 1) / k ≤ i + j) →
        (ImageContainer.embedLoop k start buf i bits).getD j 0 =
          buf.getD j 0 := by
  intro buf
  induction buf with
  | nil => intro i bits _ j _; rfl
  | cons s rest ih =>
    intro i bits hi j hcond
    by_cases h1 : i * k < start
    · rw [ImageContainer.embedLoop, if_pos h1]
      cases j with
      | zero => rfl
      | succ j' =>
        rw [List.getD_cons_succ, List.getD_cons_succ]
        apply ih (i + 1) bits
        · have := (lt_ceil_iff k start i hk).mpr h1
          omega
        · have e : (i + 1) + j' = i + (j' + 1) := by omega
          rw [e]
          exact hcond
    · have hi0 : i = (start + k - 1) / k := by
        have := (lt_ceil_iff k start i hk).not
        omega
      have hstart : start ≤ i * k := by omega
      apply embedLoop_beyond k start hk (s :: rest) i bits hstart j
      rcases hcond with hlt | hge
      · exfalso
        have h1le : i * k ≤ (i + j) * k := Nat.mul_le_mul_right k (by omega)
        omega
      · omega

theorem dataToBits_length (data : List Nat) :
    (ImageContainer.dataToBits data).length = 8 * data.length := by
  induction data with
  | nil => rfl
  | cons b rest ih =>
    simp [ImageContainer.dataToBits, ImageContainer.byteBitsMSB, ih]
    ring

theorem padBits_ceil (k : Nat) (hk : 1 ≤ k) (bits : List Bool) :
    ((ImageContainer.padBits k bits).length + k - 1) / k =
      (bits.length + k - 1) / k := by
  unfold ImageContainer.padBits
  by_cases h : bits.length % k = 0
  · rw [if_pos h]
  · rw [if_neg h]
    rw [List.length_append, List.length_replicate]
    have hd := Nat.div_add_mod bits.length k
    have hm : bits.length % k < k := Nat.mod_lt _ (by omega)
    have e1 : bits.length + (k - bits.length % k) + k - 1 =
        k * (bits.length / k + 1) + (k - 1) := by
      rw [Nat.mul_succ]; omega
    have e2 : bits.length + k - 1 =
        k * (bits.length / k + 1) + (bits.length % k - 1) := by
      rw [Nat.mul_succ]; omega
    rw [e1]
    rw [e2]
    rw [Nat.mul_add_div (show 0 < k by omega),
        Nat.mul_add_div (show 0 < k by omega)]
    rw [Nat.div_eq_of_lt (show k - 1 < k by omega)]
    rw [Nat.div_eq_of_lt (show bits.length % k - 1 < k by omega)]

/-- **C9** (confirmed).  For every buffer of 8-bit samples and every data
fitting the capacity check of `write_data`, the embedding writes only
the low `k` bits of samples (`res.getD j 0 / 2^k = buf.getD j 0 / 2^k`
for every sample) and touches only the
`⌈8*len(data)/k⌉` samples starting at `⌈start_bit/k⌉`: every sample
before the start or beyond the needed count keeps its exact original
value. -/
theorem C9_embed_frame (k nextFree : Nat) (data buf res : List Nat)
    (hk1 : 1 ≤ k) (hk4 : k ≤ 4) (hbuf : ∀ s ∈ buf, s < 256)
    (hok : ImageContainer.write_data k nextFree data buf = .ok res) :
    res.length = buf.length ∧
    (∀ j, res.getD j 0 / 2 ^ k = buf.getD j 0 / 2 ^ k) ∧
    (∀ j, (j * k < nextFree * 8 ∨
        (nextFree * 8 + k - 1) / k + (8 * data.length + k - 1) / k ≤ j) →
      res.getD j 0 = buf.getD j 0) := by
  unfold ImageContainer.write_data at hok
  by_cases hcap : nextFree + data.length > buf.length * k / 8
  · rw [if_pos hcap] at hok
    exact absurd hok (by simp)
  · rw [if_neg hcap] at hok
    have hres : res = ImageContainer.embedLoop k (nextFree * 8) buf 0
        (ImageContainer.padBits k (ImageContainer.dataToBits data)) :=
      (Except.ok.inj hok).symm
    subst hres
    refine ⟨embedLoop_length k (nextFree * 8) buf 0 _, ?_, ?_⟩
    · intro j
      rw [← Nat.shiftRight_eq_div_pow, ← Nat.shiftRight_eq_div_pow]
      exact embedLoop_high k (nextFree * 8) hk1 hk4 buf 0 _ hbuf j
    · intro j hj
      apply embedLoop_untouched k (nextFree * 8) hk1 buf 0 _ (Nat.zero_le _) j
      rw [padBits_ceil k hk1, dataToBits_length data]
      simpa using hj

/-- Witness for `C9_embed_frame`: `k = 2`, one byte `171` embedded into
the 4-sample buffer `[255, 128, 7, 9]`, which becomes
`[253, 129, 5, 11]`. -/
theorem C9_embed_frame_witness :
    ([253, 129, 5, 11] : List Nat).length =
        ([255, 128, 7, 9] : List Nat).length ∧
    (∀ j, ([253, 129, 5, 11] : List Nat).getD j 0 / 2 ^ 2 =
        ([255, 128, 7, 9] : List Nat).getD j 0 / 2 ^ 2) ∧
    (∀ j, (j * 2 < 0 * 8 ∨
        (0 * 8 + 2 - 1) / 2 + (8 * ([171] : List Nat).length + 2 - 1) / 2
          ≤ j) →
      ([253, 129, 5, 11] : List Nat).getD j 0 =
        ([255, 128, 7, 9] : List Nat).getD j 0) :=
  C9_embed_frame 2 0 [171] [255, 128, 7, 9] [253, 129, 5, 11]
    (by norm_num) (by norm_num) (by decide) (by decide)
